import Mathlib

/-!
Shallow embedding of the opa-scaler control plane (Go) in Lean 4.

The embedding models, faithfully to the Go source:
* `MergePolicies`, `PushPolicies`, `DeletePolicies` (internal/opa policy client);
* the Dependency controller's `Reconcile` and `addPolicyToEngine`
  (the deferred-verification variant, including the split/spill logic);
* the OpaEngine controller's `Reconcile` (finalizer discipline, child
  creation, availability condition, policy sync).

Cluster state is explicit (`DWorld`, `EWorld`); cluster writes and HTTP
calls are recorded in a write log; the HTTP runtime and one injectable
status-update outcome are oracles passed as parameters.
-/

/-- A status condition as used by `meta.SetStatusCondition`
(type, status, reason, message); timestamps are not modelled. -/
structure Condition where
  ctype : String
  cstatus : String
  reason : String
  message : String
deriving DecidableEq, Repr

/-- Model of `meta.SetStatusCondition`: conditions are deduplicated by type;
setting an identical (type,status,reason,message) is a no-op (`false`);
otherwise the matching entry is replaced, or the condition appended, and
`true` is returned. -/
def setStatusCondition : List Condition → Condition → List Condition × Bool
  | [], c => ([c], true)
  | x :: xs, c =>
    if x.ctype = c.ctype then
      if x = c then (x :: xs, false) else (c :: xs, true)
    else
      let r := setStatusCondition xs c
      (x :: r.1, r.2)

/-- The condition just set is always present in the resulting list. -/
theorem setStatusCondition_mem (conds : List Condition) (c : Condition) :
    c ∈ (setStatusCondition conds c).1 := by
  induction conds with
  | nil => simp [setStatusCondition]
  | cons x xs ih =>
    by_cases h : x.ctype = c.ctype
    · by_cases h2 : x = c
      · simp [setStatusCondition, h, h2]
      · simp [setStatusCondition, h, h2]
    · simp [setStatusCondition, h]
      right
      exact ih

/-- `MergePolicies` from `internal/opa/policies.go`: the outer loop over
`expected` with an inner membership scan over `actual`, and symmetrically. -/
def mergeScan : List String → List String → List String
  | [], _ => []
  | p :: rest, other =>
    if other.contains p then mergeScan rest other else p :: mergeScan rest other

/-- `MergePolicies(expected, actual)` returns `(toBeAdded, toBeRemove)`. -/
def MergePolicies (expected actual : List String) : List String × List String :=
  (mergeScan expected actual, mergeScan actual expected)

/-- Modelled from the spec: `Diff(desired, observed)` as the spec words it,
order-preserving set difference with string-exact equality. -/
def specDiff (desired observed : List String) : List String × List String :=
  (desired.filter (fun p => ¬ p ∈ observed), observed.filter (fun p => ¬ p ∈ desired))

theorem mergeScan_eq_filter (src other : List String) :
    mergeScan src other = src.filter (fun p => ¬ p ∈ other) := by
  induction src with
  | nil => rfl
  | cons p rest ih =>
    by_cases h : p ∈ other
    · have hc : other.contains p = true := List.elem_iff.mpr h
      simp [mergeScan, hc, h, ih]
    · have hc : other.contains p = false := by
        simp [List.elem_iff]
        exact h
      simp [mergeScan, hc, h, ih]

/-- C4: `MergePolicies(desired, observed)` returns `toAdd` = the names of
`desired` not occurring in `observed` and `toRemove` = the names of
`observed` not occurring in `desired`, string-exact and order-preserving
(it agrees with the spec's `Diff`); consequently `MergePolicies(a, a) = ([], [])`,
`MergePolicies(a, []) = (a, [])` and `MergePolicies([], a) = ([], a)`. -/
theorem mergePolicies_diff (desired observed a : List String) :
    MergePolicies desired observed = specDiff desired observed ∧
    MergePolicies a a = ([], []) ∧
    MergePolicies a [] = (a, []) ∧
    MergePolicies [] a = ([], a) := by
  refine ⟨?_, ?_, ?_, ?_⟩
  · simp [MergePolicies, specDiff, mergeScan_eq_filter]
  · simp [MergePolicies, mergeScan_eq_filter]
  · simp [MergePolicies, mergeScan_eq_filter, mergeScan]
  · simp [MergePolicies, mergeScan_eq_filter, mergeScan]

/-- An HTTP interaction outcome as seen by the Go policy client: either a
transport-level error from `http.DefaultClient.Do`, or a response with a
numeric status code, a status line (`resp.Status`) and a body. -/
inductive HttpAnswer where
  | transport (msg : String)
  | resp (status : Nat) (statusText : String) (body : String)
deriving DecidableEq, Repr

/-- `fmt.Errorf("failed to push policy %s: %s\n%s", name, resp.Status, body)`. -/
def pushErrMsg (name statusText body : String) : String :=
  "failed to push policy " ++ name ++ ": " ++ statusText ++ "\n" ++ body

/-- `fmt.Errorf("failed to delete policy %s: %s\n%s", name, resp.Status, body)`. -/
def deleteErrMsg (name statusText body : String) : String :=
  "failed to delete policy " ++ name ++ ": " ++ statusText ++ "\n" ++ body

/-- `PushPolicies` from the policy client: iterate the (name, source) pairs
in order, PUT each one; on HTTP 200 record the name; on transport error
return the accumulated names and the error; on any other status return the
accumulated names and the formatted diagnostic. The PUT oracle is keyed by
policy name. -/
def PushPolicies (put : String → HttpAnswer) : List (String × String) → List String × Option String
  | [] => ([], none)
  | (name, _src) :: rest =>
    match put name with
    | .transport msg => ([], some msg)
    | .resp status statusText body =>
      if status = 200 then
        let r := PushPolicies put rest
        (name :: r.1, r.2)
      else ([], some (pushErrMsg name statusText body))

/-- `DeletePolicies` from the policy client: DELETE each name in order;
HTTP 200 counts, anything else halts with the removed-so-far names. -/
def DeletePolicies (del : String → HttpAnswer) : List String → List String × Option String
  | [] => ([], none)
  | name :: rest =>
    match del name with
    | .transport msg => ([], some msg)
    | .resp status statusText body =>
      if status = 200 then
        let r := DeletePolicies del rest
        (name :: r.1, r.2)
      else ([], some (deleteErrMsg name statusText body))

/-- The success criterion of the client: an HTTP response with status 200. -/
def ok200 : HttpAnswer → Bool
  | .resp s _ _ => s == 200
  | .transport _ => false

/-- `s` occurs as a contiguous substring of `m`. -/
def strContains (m s : String) : Prop := ∃ pre post : String, m = pre ++ s ++ post

theorem strContains_pushErrMsg (n t b : String) :
    strContains (pushErrMsg n t b) n ∧ strContains (pushErrMsg n t b) t ∧
    strContains (pushErrMsg n t b) b := by
  refine ⟨⟨"failed to push policy ", ": " ++ t ++ "\n" ++ b, ?_⟩,
    ⟨"failed to push policy " ++ n ++ ": ", "\n" ++ b, ?_⟩,
    ⟨"failed to push policy " ++ n ++ ": " ++ t ++ "\n", "", ?_⟩⟩ <;>
    simp [pushErrMsg, String.append_assoc]

theorem strContains_deleteErrMsg (n t b : String) :
    strContains (deleteErrMsg n t b) n ∧ strContains (deleteErrMsg n t b) t ∧
    strContains (deleteErrMsg n t b) b := by
  refine ⟨⟨"failed to delete policy ", ": " ++ t ++ "\n" ++ b, ?_⟩,
    ⟨"failed to delete policy " ++ n ++ ": ", "\n" ++ b, ?_⟩,
    ⟨"failed to delete policy " ++ n ++ ": " ++ t ++ "\n", "", ?_⟩⟩ <;>
    simp [deleteErrMsg, String.append_assoc]

theorem pushPolicies_added (put : String → HttpAnswer) (pairs : List (String × String)) :
    (PushPolicies put pairs).1 =
      (pairs.takeWhile (fun nc => ok200 (put nc.1))).map Prod.fst := by
  induction pairs with
  | nil => rfl
  | cons nc rest ih =>
    obtain ⟨name, src⟩ := nc
    match h : put name with
    | .transport msg => simp [PushPolicies, h, List.takeWhile_cons, ok200]
    | .resp s t b =>
      by_cases hs : s = 200
      · subst hs
        simp [PushPolicies, h, List.takeWhile_cons, ok200, ih]
      · simp [PushPolicies, h, hs, List.takeWhile_cons, ok200]

theorem pushPolicies_err_none (put : String → HttpAnswer) (pairs : List (String × String)) :
    (PushPolicies put pairs).2 = none ↔ ∀ nc ∈ pairs, ok200 (put nc.1) := by
  induction pairs with
  | nil => simp [PushPolicies]
  | cons nc rest ih =>
    obtain ⟨name, src⟩ := nc
    match h : put name with
    | .transport msg => simp [PushPolicies, h, ok200]
    | .resp s t b =>
      by_cases hs : s = 200
      · subst hs
        simp [PushPolicies, h, ok200, ih]
      · simp [PushPolicies, h, hs, ok200]

theorem pushPolicies_first_bad (put : String → HttpAnswer) (pairs : List (String × String))
    (n c : String) (rest : List (String × String))
    (hdrop : pairs.dropWhile (fun nc => ok200 (put nc.1)) = (n, c) :: rest) :
    (∀ s t b, put n = .resp s t b → (PushPolicies put pairs).2 = some (pushErrMsg n t b)) ∧
    (∀ msg, put n = .transport msg → (PushPolicies put pairs).2 = some msg) := by
  induction pairs with
  | nil => simp [List.dropWhile] at hdrop
  | cons nc0 rest0 ih =>
    obtain ⟨name, src⟩ := nc0
    by_cases hok : ok200 (put name)
    · rw [List.dropWhile_cons_of_pos (by simpa using hok)] at hdrop
      have hrec := ih hdrop
      match h : put name with
      | .transport msg => rw [h] at hok; simp [ok200] at hok
      | .resp s t b =>
        rw [h] at hok
        have hs : s = 200 := by simpa [ok200] using hok
        subst hs
        constructor
        · intro s' t' b' hput
          simp only [PushPolicies, h, if_pos rfl]
          exact hrec.1 s' t' b' hput
        · intro msg hput
          simp only [PushPolicies, h, if_pos rfl]
          exact hrec.2 msg hput
    · rw [List.dropWhile_cons_of_neg (by simpa using hok)] at hdrop
      obtain ⟨hn, hc⟩ : name = n ∧ src = c := by
        have := List.cons.injEq .. ▸ hdrop
        simp at hdrop
        exact ⟨hdrop.1.1, hdrop.1.2⟩
      subst hn
      constructor
      · intro s t b hput
        have hs : ¬ s = 200 := by
          intro hs; subst hs; rw [hput] at hok; simp [ok200] at hok
        simp [PushPolicies, hput, hs]
      · intro msg hput
        simp [PushPolicies, hput]

theorem deletePolicies_removed (del : String → HttpAnswer) (names : List String) :
    (DeletePolicies del names).1 = names.takeWhile (fun n => ok200 (del n)) := by
  induction names with
  | nil => rfl
  | cons name rest ih =>
    match h : del name with
    | .transport msg => simp [DeletePolicies, h, List.takeWhile_cons, ok200]
    | .resp s t b =>
      by_cases hs : s = 200
      · subst hs
        simp [DeletePolicies, h, List.takeWhile_cons, ok200, ih]
      · simp [DeletePolicies, h, hs, List.takeWhile_cons, ok200]

theorem deletePolicies_err_none (del : String → HttpAnswer) (names : List String) :
    (DeletePolicies del names).2 = none ↔ ∀ n ∈ names, ok200 (del n) := by
  induction names with
  | nil => simp [DeletePolicies]
  | cons name rest ih =>
    match h : del name with
    | .transport msg => simp [DeletePolicies, h, ok200]
    | .resp s t b =>
      by_cases hs : s = 200
      · subst hs
        simp [DeletePolicies, h, ok200, ih]
      · simp [DeletePolicies, h, hs, ok200]

theorem deletePolicies_first_bad (del : String → HttpAnswer) (names : List String)
    (n : String) (rest : List String)
    (hdrop : names.dropWhile (fun m => ok200 (del m)) = n :: rest) :
    (∀ s t b, del n = .resp s t b → (DeletePolicies del names).2 = some (deleteErrMsg n t b)) ∧
    (∀ msg, del n = .transport msg → (DeletePolicies del names).2 = some msg) := by
  induction names with
  | nil => simp [List.dropWhile] at hdrop
  | cons name rest0 ih =>
    by_cases hok : ok200 (del name)
    · rw [List.dropWhile_cons_of_pos (by simpa using hok)] at hdrop
      have hrec := ih hdrop
      match h : del name with
      | .transport msg => rw [h] at hok; simp [ok200] at hok
      | .resp s t b =>
        rw [h] at hok
        have hs : s = 200 := by simpa [ok200] using hok
        subst hs
        constructor
        · intro s' t' b' hput
          simp only [DeletePolicies, h, if_pos rfl]
          exact hrec.1 s' t' b' hput
        · intro msg hput
          simp only [DeletePolicies, h, if_pos rfl]
          exact hrec.2 msg hput
    · rw [List.dropWhile_cons_of_neg (by simpa using hok)] at hdrop
      have hn : name = n := by
        simp at hdrop
        exact hdrop.1
      subst hn
      constructor
      · intro s t b hput
        have hs : ¬ s = 200 := by
          intro hs; subst hs; rw [hput] at hok; simp [ok200] at hok
        simp [DeletePolicies, hput, hs]
      · intro msg hput
        simp [DeletePolicies, hput]

/-- An OpaEngine object: spec fields (`instanceName`, `policies`, `replicas`),
status fields (`statusPolicies`, `conditions`) and the metadata the
controllers read (`name`, deletion timestamp, finalizers). -/
structure OpaEngine where
  name : String
  instanceName : String
  policies : List String
  statusPolicies : List String
  conditions : List Condition
  deletionTimestamp : Bool
  finalizers : List String
  replicas : Nat
deriving DecidableEq, Repr

/-- A Dependency's spec: `serviceName` and `policyName`. -/
structure DepSpec where
  serviceName : String
  policyName : String
deriving DecidableEq, Repr

/-- A Dependency's status: conditions, `deployed`, `engineName`. -/
structure DepStatus where
  conditions : List Condition
  deployed : Bool
  engineName : List String
deriving DecidableEq, Repr

/-- A Dependency object. -/
structure Dependency where
  spec : DepSpec
  status : DepStatus
deriving DecidableEq, Repr

/-- The cluster state the Dependency controller reads and writes: the
Dependency under reconcile, the set of Policy object names present in the
namespace, and the namespace's OpaEngines in stable list order. -/
structure DWorld where
  dep : Option Dependency
  policies : List String
  engines : List OpaEngine
deriving DecidableEq, Repr

/-- A cluster write performed by the Dependency controller. -/
inductive DWrite where
  | depStatus
  | createEngine (name : String)
  | updateEngine (name : String)
deriving DecidableEq, Repr

/-- Result of one Dependency reconcile: the new cluster state, the write
log, the requeue delay of the returned `ctrl.Result` (seconds), and whether
a non-nil error was returned. -/
structure DepOutcome where
  world : DWorld
  writes : List DWrite
  requeueAfter : Option Nat
  isError : Bool
deriving DecidableEq, Repr

/-- `r.Get` of an OpaEngine by name. -/
def engineGet (engines : List OpaEngine) (n : String) : Option OpaEngine :=
  engines.find? (fun e => e.name == n)

/-- `r.Update` of the engine named `n`, replacing its `Spec.policies`. -/
def engineSetPolicies (engines : List OpaEngine) (n : String) (ps : List String) :
    List OpaEngine :=
  engines.map (fun e => if e.name = n then { e with policies := ps } else e)

/-- `DependencyReconciler.addCondition`: re-fetch the Dependency,
`meta.SetStatusCondition`, and update status only when something changed. -/
def depAddCondition (w : DWorld) (c : Condition) : DWorld × List DWrite :=
  match w.dep with
  | none => (w, [])
  | some d =>
    let r := setStatusCondition d.status.conditions c
    if r.2 then
      ({ w with dep := some { d with status := { d.status with conditions := r.1 } } },
       [.depStatus])
    else (w, [])

/-- Status update setting `Status.deployed = true` on a fresh read. -/
def depSetDeployed (w : DWorld) : DWorld :=
  match w.dep with
  | none => w
  | some d => { w with dep := some { d with status := { d.status with deployed := true } } }

/-- Status update appending an engine name to `Status.engineName`. -/
def depAppendEngineName (w : DWorld) (n : String) : DWorld :=
  match w.dep with
  | none => w
  | some d =>
    let st := { d.status with engineName := d.status.engineName ++ [n] }
    { w with dep := some { d with status := st } }

/-- The OpaEngine object constructed by the split path of
`addPolicyToEngine` (name = instanceName = the `-part2` name). -/
def newSplitEngine (newName : String) (ps : List String) : OpaEngine :=
  { name := newName, instanceName := newName, policies := ps,
    statusPolicies := [], conditions := [], deletionTimestamp := false,
    finalizers := [], replicas := 0 }

/-- Result of a write-bearing sub-operation: new state, write log, error flag. -/
structure EngOpResult where
  world : DWorld
  writes : List DWrite
  isError : Bool
deriving DecidableEq, Repr

/-- `DependencyReconciler.addPolicyToEngine` (split variant): append the
policy; if the combined list exceeds 7, move the last five entries to a
new `{name}-part2` engine and rewrite the original to exclude the moved
entries (or, when the `-part2` engine already exists, re-read the original
and keep only the entries of the previously computed remaining set);
otherwise write the combined list back to the engine. -/
def addPolicyToEngine (w : DWorld) (policyName : String) (engine : OpaEngine) :
    EngOpResult :=
  let originalPolicies := engine.policies
  let updatedPolicies := originalPolicies ++ [policyName]
  if updatedPolicies.length > 7 then
    let numToMove := if updatedPolicies.length < 5 then updatedPolicies.length else 5
    let policiesToMove := updatedPolicies.drop (updatedPolicies.length - numToMove)
    let remainingPolicies := updatedPolicies.take (updatedPolicies.length - numToMove)
    let newEngineName := engine.name ++ "-part2"
    match engineGet w.engines newEngineName with
    | some _ =>
      match engineGet w.engines engine.name with
      | none => ⟨w, [], true⟩
      | some cur =>
        let newRemaining := cur.policies.filter (fun p => remainingPolicies.contains p)
        ⟨{ w with engines := engineSetPolicies w.engines engine.name newRemaining },
         [.updateEngine engine.name], false⟩
    | none =>
      let w2 := { w with engines := w.engines ++ [newSplitEngine newEngineName policiesToMove] }
      match engineGet w2.engines engine.name with
      | none => ⟨w2, [.createEngine newEngineName], true⟩
      | some cur =>
        let newRemaining := cur.policies.filter (fun p => !(policiesToMove.contains p))
        ⟨{ w2 with engines := engineSetPolicies w2.engines engine.name newRemaining },
         [.createEngine newEngineName, .updateEngine engine.name], false⟩
  else
    match engineGet w.engines engine.name with
    | none => ⟨w, [], true⟩
    | some _ =>
      ⟨{ w with engines := engineSetPolicies w.engines engine.name updatedPolicies },
       [.updateEngine engine.name], false⟩

/-- The verification loop of the Dependency reconcile: for each name in
`Status.engineName`, fetch the engine (an error aborts with a 1s requeue);
if its `Spec.policies` contains the policy, set `PolicyDeployed`, set
`Status.deployed = true` and return; after the loop, requeue after 1s. -/
def depVerifyScheduled (dep0 : Dependency) (w : DWorld) : List String → DepOutcome
  | [] => ⟨w, [], some 1, false⟩
  | n :: rest =>
    match engineGet w.engines n with
    | none => ⟨w, [], some 1, true⟩
    | some e =>
      if e.policies.contains dep0.spec.policyName then
        let r := depAddCondition w ⟨"Available", "True", "PolicyDeployed", "Policy already scheduled"⟩
        let w2 := depSetDeployed r.1
        ⟨w2, r.2 ++ [.depStatus], none, false⟩
      else depVerifyScheduled dep0 w rest

/-- The placement arm of the Dependency reconcile: list engines; if none
exist, create the `default` engine with `policies=[policyName]` and record
the `Scheduled` condition and `Status.engineName`; otherwise add the policy
to the first listed engine via `addPolicyToEngine` (1s requeue with error
on failure), record `PolicyScheduled` and `Status.engineName`. -/
def depPlace (dep0 : Dependency) (w1 : DWorld) : DepOutcome :=
  match w1.engines with
  | [] =>
    let newEngine : OpaEngine :=
      ⟨"default", "default", [dep0.spec.policyName], [], [], false, [], 0⟩
    let w2 := { w1 with engines := w1.engines ++ [newEngine] }
    let r := depAddCondition w2 ⟨"Available", "False", "Scheduled", "Dependency scheduled in default engine"⟩
    let w3 := depAppendEngineName r.1 "default"
    ⟨w3, [.createEngine "default"] ++ r.2 ++ [.depStatus], none, false⟩
  | e :: _ =>
    let a := addPolicyToEngine w1 dep0.spec.policyName e
    if a.isError then ⟨a.world, a.writes, some 1, true⟩
    else
      let r := depAddCondition a.world ⟨"Available", "True", "PolicyScheduled", "Policy scheduled in existing engine"⟩
      let w3 := depAppendEngineName r.1 e.name
      ⟨w3, a.writes ++ r.2 ++ [.depStatus], none, false⟩

/-- `DependencyReconciler.Reconcile` (deferred-verification variant):
fetch; bootstrap condition; short-circuit on `deployed`; resolve the
Policy (`PolicyNotFound` + 10s requeue when missing); verify existing
placements when `Status.engineName` is non-empty; otherwise place via
`depPlace` (create the `default` engine, or append to the first listed
engine). -/
def DependencyReconcile (w : DWorld) : DepOutcome :=
  match w.dep with
  | none => ⟨w, [], none, false⟩
  | some dep0 =>
    let b := if dep0.status.conditions.isEmpty then
               depAddCondition w ⟨"Available", "Unknown", "DependencyNotReady", "Dependency is not ready"⟩
             else (w, [])
    if dep0.status.deployed then ⟨b.1, b.2, none, false⟩
    else if !(b.1.policies.contains dep0.spec.policyName) then
      let r := depAddCondition b.1 ⟨"Available", "False", "PolicyNotFound", "Policy not found"⟩
      ⟨r.1, b.2 ++ r.2, some 10, false⟩
    else if dep0.status.engineName.length > 0 then
      let r := depVerifyScheduled dep0 b.1 dep0.status.engineName
      ⟨r.world, b.2 ++ r.writes, r.requeueAfter, r.isError⟩
    else
      let r := depPlace dep0 b.1
      ⟨r.world, b.2 ++ r.writes, r.requeueAfter, r.isError⟩

theorem engineGet_cons (x : OpaEngine) (l : List OpaEngine) (n : String) :
    engineGet (x :: l) n = if x.name = n then some x else engineGet l n := by
  by_cases h : x.name = n
  · rw [if_pos h]
    exact List.find?_cons_of_pos _ (by simpa using h)
  · rw [if_neg h]
    exact List.find?_cons_of_neg _ (by simpa using h)

theorem engineSetPolicies_cons (x : OpaEngine) (xs : List OpaEngine) (n : String)
    (ps : List String) :
    engineSetPolicies (x :: xs) n ps =
      (if x.name = n then { x with policies := ps } else x) :: engineSetPolicies xs n ps := rfl

theorem engineGet_setPolicies_eq (l : List OpaEngine) (n : String) (ps : List String) :
    engineGet (engineSetPolicies l n ps) n =
      (engineGet l n).map (fun e => { e with policies := ps }) := by
  induction l with
  | nil => rfl
  | cons x xs ih =>
    rw [engineSetPolicies_cons]
    by_cases h : x.name = n
    · rw [if_pos h, engineGet_cons, engineGet_cons, if_pos h, if_pos h]
      rfl
    · rw [if_neg h, engineGet_cons, engineGet_cons, if_neg h, if_neg h, ih]

theorem engineGet_setPolicies_ne (l : List OpaEngine) (n m : String) (ps : List String)
    (h : m ≠ n) :
    engineGet (engineSetPolicies l n ps) m = engineGet l m := by
  induction l with
  | nil => rfl
  | cons x xs ih =>
    rw [engineSetPolicies_cons]
    by_cases hx : x.name = n
    · have hxm : ¬ x.name = m := by rw [hx]; exact fun hh => h hh.symm
      rw [if_pos hx, engineGet_cons, engineGet_cons, if_neg hxm, if_neg (by simpa using hxm), ih]
    · by_cases hxm : x.name = m
      · rw [if_neg hx, engineGet_cons, engineGet_cons, if_pos hxm, if_pos hxm]
      · rw [if_neg hx, engineGet_cons, engineGet_cons, if_neg hxm, if_neg hxm, ih]

theorem engineGet_append (l l' : List OpaEngine) (n : String) :
    engineGet (l ++ l') n = (engineGet l n).or (engineGet l' n) :=
  List.find?_append

theorem name_ne_part2 (s : String) : s ++ "-part2" ≠ s := by
  intro h
  have hlen := congrArg String.length h
  rw [String.length_append] at hlen
  have h6 : "-part2".length = 6 := rfl
  omega

/-- C1: when appending a policy would push an Engine's `Spec.policies` past
7 entries, `addPolicyToEngine` creates a new Engine named
`{originalName}-part2` whose `Spec.policies` are exactly the last five
entries of the combined list (original policies followed by the new name),
and rewrites the original Engine's `Spec.policies` to exclude those five
entries. -/
theorem addPolicyToEngine_split (w : DWorld) (e : OpaEngine) (q : String)
    (hget : engineGet w.engines e.name = some e)
    (hfull : (e.policies ++ [q]).length > 7)
    (hpart2 : engineGet w.engines (e.name ++ "-part2") = none) :
    (addPolicyToEngine w q e).isError = false ∧
    ((e.policies ++ [q]).drop ((e.policies ++ [q]).length - 5)).length = 5 ∧
    engineGet (addPolicyToEngine w q e).world.engines (e.name ++ "-part2") =
      some (newSplitEngine (e.name ++ "-part2")
        ((e.policies ++ [q]).drop ((e.policies ++ [q]).length - 5))) ∧
    engineGet (addPolicyToEngine w q e).world.engines e.name =
      some { e with policies := e.policies.filter (fun p => !(((e.policies ++ [q]).drop ((e.policies ++ [q]).length - 5)).contains p)) } := by
  have h5 : ¬ ((e.policies ++ [q]).length < 5) := by
    simp at hfull ⊢
    omega
  have hne : e.name ++ "-part2" ≠ e.name := name_ne_part2 e.name
  have hget2 : engineGet
      (w.engines ++ [newSplitEngine (e.name ++ "-part2")
        ((e.policies ++ [q]).drop ((e.policies ++ [q]).length - 5))]) e.name = some e := by
    rw [engineGet_append, hget]
    rfl
  simp only [addPolicyToEngine, if_pos hfull, if_neg h5, hpart2, hget2]
  refine ⟨trivial, ?_, ?_, ?_⟩
  · simp only [List.length_drop]
    simp at hfull ⊢
    omega
  · rw [engineGet_setPolicies_ne _ _ _ _ hne, engineGet_append, hpart2]
    simp [engineGet, List.find?, newSplitEngine]
  · rw [engineGet_setPolicies_eq, hget2]
    rfl

/-- A seeded engine at the budget boundary (spec scenario 5). -/
def splitEngineEx : OpaEngine :=
  ⟨"default", "default", ["p1", "p2", "p3", "p4", "p5", "p6", "p7"], [], [], false, [], 0⟩

/-- World holding only `splitEngineEx`. -/
def splitWorldEx : DWorld := ⟨none, [], [splitEngineEx]⟩

/-- Witness for C1: concrete split of a 7-policy engine on adding `p8`. -/
theorem addPolicyToEngine_split_witness :
    (addPolicyToEngine splitWorldEx "p8" splitEngineEx).isError = false ∧
    ((splitEngineEx.policies ++ ["p8"]).drop ((splitEngineEx.policies ++ ["p8"]).length - 5)).length = 5 ∧
    engineGet (addPolicyToEngine splitWorldEx "p8" splitEngineEx).world.engines (splitEngineEx.name ++ "-part2") =
      some (newSplitEngine (splitEngineEx.name ++ "-part2") ((splitEngineEx.policies ++ ["p8"]).drop ((splitEngineEx.policies ++ ["p8"]).length - 5))) ∧
    engineGet (addPolicyToEngine splitWorldEx "p8" splitEngineEx).world.engines splitEngineEx.name =
      some { splitEngineEx with policies := splitEngineEx.policies.filter (fun p => !(((splitEngineEx.policies ++ ["p8"]).drop ((splitEngineEx.policies ++ ["p8"]).length - 5)).contains p)) } :=
  addPolicyToEngine_split splitWorldEx splitEngineEx "p8" (by decide) (by decide) (by decide)

/-- An engine seeded with 12 policies, beyond what a single split can repair. -/
def bigEngineEx : OpaEngine :=
  ⟨"default", "default",
    ["p1", "p2", "p3", "p4", "p5", "p6", "p7", "p8", "p9", "p10", "p11", "p12"],
    [], [], false, [], 0⟩

/-- World holding only `bigEngineEx`. -/
def bigWorldEx : DWorld := ⟨none, [], [bigEngineEx]⟩

/-- C2 counterexample: with a pre-existing `Spec.policies` of length 12, the
split completes (the `-part2` engine is created with the last five entries)
yet the original engine retains 8 policies, exceeding the budget of 7 — so
the bound does not hold "regardless of how long" the pre-existing list was. -/
theorem addPolicyToEngine_overBudget_cex :
    (addPolicyToEngine bigWorldEx "q" bigEngineEx).isError = false ∧
    engineGet (addPolicyToEngine bigWorldEx "q" bigEngineEx).world.engines "default-part2" =
      some (newSplitEngine "default-part2" ["p9", "p10", "p11", "p12", "q"]) ∧
    (engineGet (addPolicyToEngine bigWorldEx "q" bigEngineEx).world.engines "default").map
      (fun e => e.policies.length) = some 8 ∧
    ¬ (8 ≤ 7) := by decide

theorem length_filter_le_of_drop_false (P : List String) (k : Nat) (f : String → Bool)
    (h : ∀ p ∈ P.drop k, f p = false) : (P.filter f).length ≤ k := by
  conv_lhs => rw [show P = P.take k ++ P.drop k from (List.take_append_drop k P).symm]
  rw [List.filter_append]
  have h2 : (P.drop k).filter f = [] := by
    rw [List.filter_eq_nil_iff]
    intro a ha
    simp [h a ha]
  rw [h2, List.append_nil]
  calc ((P.take k).filter f).length ≤ (P.take k).length := List.length_filter_le _ _
    _ ≤ k := by rw [List.length_take]; omega

/-- C2 (amended): provided the engine's pre-existing `Spec.policies` has at
most 11 entries and no duplicates, `addPolicyToEngine` leaves the original
engine with at most 7 policies in every branch, and whenever the combined
list exceeds 7 and the `-part2` engine did not already exist, the newly
created `-part2` engine holds exactly 5 policies. -/
theorem addPolicyToEngine_budget (w : DWorld) (e : OpaEngine) (q : String)
    (hget : engineGet w.engines e.name = some e)
    (hlen : e.policies.length ≤ 11)
    (hnodup : e.policies.Nodup) :
    (addPolicyToEngine w q e).isError = false ∧
    (∀ e', engineGet (addPolicyToEngine w q e).world.engines e.name = some e' →
      e'.policies.length ≤ 7) ∧
    ((e.policies ++ [q]).length > 7 → engineGet w.engines (e.name ++ "-part2") = none →
      ∃ e2, engineGet (addPolicyToEngine w q e).world.engines (e.name ++ "-part2") = some e2 ∧
        e2.policies.length = 5) := by
  have hL : (e.policies ++ [q]).length = e.policies.length + 1 := by simp
  by_cases hfull : (e.policies ++ [q]).length > 7
  · have h5 : ¬ ((e.policies ++ [q]).length < 5) := by omega
    have hge7 : 7 ≤ e.policies.length := by omega
    match h2 : engineGet w.engines (e.name ++ "-part2") with
    | some ex =>
      simp only [addPolicyToEngine, if_pos hfull, if_neg h5, h2, hget]
      refine ⟨trivial, ?_, ?_⟩
      · intro e' h'
        rw [engineGet_setPolicies_eq, hget] at h'
        simp only [Option.map_some', Option.some.injEq] at h'
        have he' := h'.symm
        subst he'
        refine le_trans (length_filter_le_of_drop_false e.policies (e.policies.length - 4) _ ?_) (by omega)
        intro p hp
        have hnotin : p ∉ (e.policies ++ [q]).take (e.policies.length - 4) := by
          rw [List.take_append_of_le_length (by omega)]
          exact fun hmem => (List.disjoint_take_drop hnodup le_rfl) hmem hp
        simp [List.elem_iff]
        exact hnotin
      · intro _ hnone
        exact absurd hnone (by simp)
    | none =>
      have hget2 : engineGet
          (w.engines ++ [newSplitEngine (e.name ++ "-part2")
            ((e.policies ++ [q]).drop ((e.policies ++ [q]).length - 5))]) e.name = some e := by
        rw [engineGet_append, hget]
        rfl
      have hne : e.name ++ "-part2" ≠ e.name := name_ne_part2 e.name
      simp only [addPolicyToEngine, if_pos hfull, if_neg h5, h2, hget2]
      refine ⟨trivial, ?_, ?_⟩
      · intro e' h'
        rw [engineGet_setPolicies_eq, hget2] at h'
        simp only [Option.map_some', Option.some.injEq] at h'
        have he' := h'.symm
        subst he'
        refine le_trans (length_filter_le_of_drop_false e.policies (e.policies.length - 4) _ ?_) (by omega)
        intro p hp
        have hmem : p ∈ (e.policies ++ [q]).drop (e.policies.length - 4) := by
          rw [List.drop_append_of_le_length (by omega)]
          exact List.mem_append_left _ hp
        simp [List.elem_iff]
        exact hmem
      · intro _ _
        refine ⟨newSplitEngine (e.name ++ "-part2")
          ((e.policies ++ [q]).drop ((e.policies ++ [q]).length - 5)), ?_, ?_⟩
        · rw [engineGet_setPolicies_ne _ _ _ _ hne, engineGet_append, h2]
          simp [engineGet, List.find?, newSplitEngine]
        · simp only [newSplitEngine, List.length_drop]
          omega
  · simp only [addPolicyToEngine, if_neg hfull, hget]
    refine ⟨trivial, ?_, fun hf _ => absurd hf hfull⟩
    intro e' h'
    rw [engineGet_setPolicies_eq, hget] at h'
    simp only [Option.map_some', Option.some.injEq] at h'
    have he' := h'.symm
    subst he'
    have hb : (e.policies ++ [q]).length ≤ 7 := by omega
    exact hb

/-- C3 (amended): `PushPolicies` and `DeletePolicies` process their inputs
in iteration order and are prefix-complete: the returned names are exactly
the longest prefix answered with HTTP 200, and no error is returned iff
every element is answered 200. On the first non-200 HTTP response they
halt and return an error message containing the failing name, the HTTP
status and the response body; on a transport error they halt and return
the transport error itself (which carries no HTTP status or body). -/
theorem pushDeletePolicies_haltOnFailure (put del : String → HttpAnswer)
    (pairs : List (String × String)) (names : List String) :
    ((PushPolicies put pairs).1 = (pairs.takeWhile (fun nc => ok200 (put nc.1))).map Prod.fst) ∧
    ((PushPolicies put pairs).2 = none ↔ ∀ nc ∈ pairs, ok200 (put nc.1)) ∧
    (∀ n c rest, pairs.dropWhile (fun nc => ok200 (put nc.1)) = (n, c) :: rest →
      (∀ s t b, put n = .resp s t b →
        (PushPolicies put pairs).2 = some (pushErrMsg n t b) ∧
        strContains (pushErrMsg n t b) n ∧ strContains (pushErrMsg n t b) t ∧
        strContains (pushErrMsg n t b) b) ∧
      (∀ msg, put n = .transport msg → (PushPolicies put pairs).2 = some msg)) ∧
    ((DeletePolicies del names).1 = names.takeWhile (fun m => ok200 (del m))) ∧
    ((DeletePolicies del names).2 = none ↔ ∀ m ∈ names, ok200 (del m)) ∧
    (∀ n rest, names.dropWhile (fun m => ok200 (del m)) = n :: rest →
      (∀ s t b, del n = .resp s t b →
        (DeletePolicies del names).2 = some (deleteErrMsg n t b) ∧
        strContains (deleteErrMsg n t b) n ∧ strContains (deleteErrMsg n t b) t ∧
        strContains (deleteErrMsg n t b) b) ∧
      (∀ msg, del n = .transport msg → (DeletePolicies del names).2 = some msg)) := by
  refine ⟨pushPolicies_added put pairs, pushPolicies_err_none put pairs, ?_,
    deletePolicies_removed del names, deletePolicies_err_none del names, ?_⟩
  · intro n c rest hdrop
    have h := pushPolicies_first_bad put pairs n c rest hdrop
    constructor
    · intro s t b hput
      have hc := strContains_pushErrMsg n t b
      exact ⟨h.1 s t b hput, hc.1, hc.2.1, hc.2.2⟩
    · exact h.2
  · intro n rest hdrop
    have h := deletePolicies_first_bad del names n rest hdrop
    constructor
    · intro s t b hput
      have hc := strContains_deleteErrMsg n t b
      exact ⟨h.1 s t b hput, hc.1, hc.2.1, hc.2.2⟩
    · exact h.2

/-- C3 counterexample: on a transport error the client halts with the
prefix, but the returned error is the bare transport error — it does not
contain the failing policy name (and carries no HTTP status or body) — so
the claim's "error message containing the failing name, the HTTP status,
and the response body" fails for transport errors. -/
theorem pushPolicies_transport_cex :
    PushPolicies (fun _ => .transport "boom") [("zzz", "src")] = ([], some "boom") ∧
    ¬ strContains "boom" "zzz" := by
  constructor
  · rfl
  · rintro ⟨pre, post, h⟩
    have hd := congrArg String.data h
    rw [String.data_append, String.data_append] at hd
    have hz : ('z' : Char) ∈ "boom".data := by
      rw [hd]
      exact List.mem_append_left _ (List.mem_append_right _ (by decide))
    exact absurd hz (by decide)

/-- PUT oracle for the C3 witness: `a` succeeds, everything else gets a 500. -/
def putEx : String → HttpAnswer := fun n =>
  if n = "a" then .resp 200 "200 OK" "" else .resp 500 "500 Internal Server Error" "boom"

/-- DELETE oracle for the C3 witness: `x` succeeds, everything else hits a
transport error. -/
def delEx : String → HttpAnswer := fun n =>
  if n = "x" then .resp 200 "200 OK" "" else .transport "connection refused"

/-- Witness for C3 (amended) at concrete inputs. -/
theorem pushDeletePolicies_haltOnFailure_witness :
    (PushPolicies putEx [("a", "s1"), ("b", "s2"), ("c", "s3")]).1 = ["a"] ∧
    (PushPolicies putEx [("a", "s1"), ("b", "s2"), ("c", "s3")]).2 =
      some (pushErrMsg "b" "500 Internal Server Error" "boom") ∧
    strContains (pushErrMsg "b" "500 Internal Server Error" "boom") "b" ∧
    (DeletePolicies delEx ["x", "y"]).1 = ["x"] ∧
    (DeletePolicies delEx ["x", "y"]).2 = some "connection refused" := by
  have h := pushDeletePolicies_haltOnFailure putEx delEx
    [("a", "s1"), ("b", "s2"), ("c", "s3")] ["x", "y"]
  obtain ⟨h1, _, h3, h4, _, h6⟩ := h
  have hb := h3 "b" "s2" [("c", "s3")] (by decide)
  have hresp := hb.1 500 "500 Internal Server Error" "boom" (by decide)
  have hy := h6 "y" [] (by decide)
  refine ⟨?_, hresp.1, hresp.2.1, ?_, hy.2 "connection refused" (by decide)⟩
  · rw [h1]; decide
  · rw [h4]; decide

theorem setStatusCondition_not_changed_mem (l : List Condition) (c : Condition)
    (h : (setStatusCondition l c).2 = false) : c ∈ l := by
  induction l with
  | nil => simp [setStatusCondition] at h
  | cons x xs ih =>
    by_cases hx : x.ctype = c.ctype
    · by_cases h2 : x = c
      · subst h2
        exact List.mem_cons_self x xs
      · simp [setStatusCondition, hx, h2] at h
    · simp only [setStatusCondition, if_neg hx] at h
      exact List.mem_cons_of_mem _ (ih h)

theorem depAddCondition_writes (w : DWorld) (c : Condition) :
    (depAddCondition w c).2 = [] ∨ (depAddCondition w c).2 = [DWrite.depStatus] := by
  unfold depAddCondition
  match w.dep with
  | none => exact Or.inl rfl
  | some d =>
    by_cases hch : (setStatusCondition d.status.conditions c).2
    · right
      simp [hch]
    · left
      simp [hch]

/-- C6: a Dependency (not yet deployed) whose `Spec.policyName` names no
existing Policy: one reconcile returns success with a ~10s requeue, sets
the `{Available, False, PolicyNotFound}` condition, creates no Engine and
leaves the engine list untouched. -/
theorem depReconcile_policyNotFound (w : DWorld) (d : Dependency)
    (hdep : w.dep = some d)
    (hnd : d.status.deployed = false)
    (hpol : w.policies.contains d.spec.policyName = false) :
    (DependencyReconcile w).isError = false ∧
    (DependencyReconcile w).requeueAfter = some 10 ∧
    (DependencyReconcile w).world.engines = w.engines ∧
    ∃ d', (DependencyReconcile w).world.dep = some d' ∧
      (⟨"Available", "False", "PolicyNotFound", "Policy not found"⟩ : Condition) ∈ d'.status.conditions ∧
      d'.status.deployed = false := by
  obtain ⟨wdep, wpol, weng⟩ := w
  obtain ⟨dspec, dstatus⟩ := d
  obtain ⟨conds, dployed, engnames⟩ := dstatus
  simp only at hdep hnd hpol
  subst hdep
  subst hnd
  simp only [DependencyReconcile]
  by_cases hbe : conds.isEmpty
  · simp only [hbe, if_true, depAddCondition]
    by_cases hch1 : (setStatusCondition conds ⟨"Available", "Unknown", "DependencyNotReady", "Dependency is not ready"⟩).2
    · simp only [hch1, if_true, Bool.false_eq_true, if_false, hpol, Bool.not_false]
      by_cases hch2 : (setStatusCondition (setStatusCondition conds ⟨"Available", "Unknown", "DependencyNotReady", "Dependency is not ready"⟩).1 ⟨"Available", "False", "PolicyNotFound", "Policy not found"⟩).2
      · simp only [hch2, if_true]
        exact ⟨by trivial, by trivial, by trivial, _, rfl, setStatusCondition_mem _ _, by trivial⟩
      · simp only [hch2, Bool.false_eq_true, if_false]
        exact ⟨by trivial, by trivial, by trivial, _, rfl,
          setStatusCondition_not_changed_mem _ _ (by simpa using hch2), by trivial⟩
    · simp only [hch1, Bool.false_eq_true, if_false, hpol, Bool.not_false]
      by_cases hch2 : (setStatusCondition conds ⟨"Available", "False", "PolicyNotFound", "Policy not found"⟩).2
      · simp only [hch2, if_true]
        exact ⟨by trivial, by trivial, by trivial, _, rfl, setStatusCondition_mem _ _, by trivial⟩
      · simp only [hch2, Bool.false_eq_true, if_false]
        exact ⟨by trivial, by trivial, by trivial, _, rfl,
          setStatusCondition_not_changed_mem _ _ (by simpa using hch2), by trivial⟩
  · simp only [hbe, Bool.false_eq_true, if_false, hpol, Bool.not_false]
    by_cases hch2 : (setStatusCondition conds ⟨"Available", "False", "PolicyNotFound", "Policy not found"⟩).2
    · simp only [depAddCondition, hch2, if_true]
      exact ⟨by trivial, by trivial, by trivial, _, rfl, setStatusCondition_mem _ _, by trivial⟩
    · simp only [depAddCondition, hch2, Bool.false_eq_true, if_false]
      exact ⟨by trivial, by trivial, by trivial, _, rfl,
        setStatusCondition_not_changed_mem _ _ (by simpa using hch2), by trivial⟩

theorem dworld_eta (w : DWorld) (d : Dependency) (h : w.dep = some d) :
    w = ⟨some ⟨d.spec, ⟨d.status.conditions, d.status.deployed, d.status.engineName⟩⟩,
      w.policies, w.engines⟩ := by
  obtain ⟨wdep, wpol, weng⟩ := w
  simp only at h
  subst h
  rfl

theorem depAddCondition_shape (w : DWorld) (d : Dependency) (c : Condition)
    (h : w.dep = some d) :
    ∃ conds, (depAddCondition w c).1 =
      ⟨some ⟨d.spec, ⟨conds, d.status.deployed, d.status.engineName⟩⟩, w.policies, w.engines⟩ := by
  obtain ⟨wdep, wpol, weng⟩ := w
  simp only at h
  subst h
  obtain ⟨ds, ⟨conds, dd, de⟩⟩ := d
  simp only [depAddCondition]
  by_cases hch : (setStatusCondition conds c).2
  · exact ⟨(setStatusCondition conds c).1, by simp [hch]⟩
  · exact ⟨conds, by simp [hch]⟩

theorem depSetDeployed_shape (w : DWorld) (d : Dependency) (h : w.dep = some d) :
    depSetDeployed w =
      ⟨some ⟨d.spec, ⟨d.status.conditions, true, d.status.engineName⟩⟩, w.policies, w.engines⟩ := by
  obtain ⟨wdep, wpol, weng⟩ := w
  simp only at h
  subst h
  obtain ⟨ds, ⟨conds, dd, de⟩⟩ := d
  rfl

theorem depAppendEngineName_shape (w : DWorld) (d : Dependency) (n : String)
    (h : w.dep = some d) :
    depAppendEngineName w n =
      ⟨some ⟨d.spec, ⟨d.status.conditions, d.status.deployed, d.status.engineName ++ [n]⟩⟩,
        w.policies, w.engines⟩ := by
  obtain ⟨wdep, wpol, weng⟩ := w
  simp only at h
  subst h
  obtain ⟨ds, ⟨conds, dd, de⟩⟩ := d
  rfl

theorem addPolicyToEngine_dep (w : DWorld) (q : String) (e : OpaEngine) :
    (addPolicyToEngine w q e).world.dep = w.dep ∧
    (addPolicyToEngine w q e).world.policies = w.policies := by
  simp only [addPolicyToEngine]
  repeat' split
  all_goals exact ⟨rfl, rfl⟩

theorem depVerifyScheduled_cases (dep0 : Dependency) (w1 : DWorld) (names : List String) :
    ((depVerifyScheduled dep0 w1 names).world = w1 ∧
      (depVerifyScheduled dep0 w1 names).writes = []) ∨
    (∃ n ∈ names, ∃ e, engineGet w1.engines n = some e ∧
      dep0.spec.policyName ∈ e.policies ∧
      (depVerifyScheduled dep0 w1 names).world =
        depSetDeployed (depAddCondition w1
          ⟨"Available", "True", "PolicyDeployed", "Policy already scheduled"⟩).1) := by
  induction names with
  | nil => exact Or.inl ⟨rfl, rfl⟩
  | cons n rest ih =>
    match hg : engineGet w1.engines n with
    | none =>
      left
      simp [depVerifyScheduled, hg]
    | some e =>
      by_cases hc : e.policies.contains dep0.spec.policyName
      · have hmem := List.elem_iff.mp hc
        right
        refine ⟨n, List.mem_cons_self n rest, e, hg, hmem, ?_⟩
        simp [depVerifyScheduled, hg, hc, hmem]
      · have hnm : dep0.spec.policyName ∉ e.policies := fun hm => hc (List.elem_iff.mpr hm)
        rcases ih with h | ⟨n', hn', e', hge', hpe', hworld'⟩
        · left
          simpa [depVerifyScheduled, hg, hnm] using h
        · right
          refine ⟨n', List.mem_cons_of_mem _ hn', e', hge', hpe', ?_⟩
          simpa [depVerifyScheduled, hg, hnm] using hworld'

theorem depPlace_deployed (dep0 : Dependency) (w1 : DWorld) (d1 : Dependency)
    (h1 : w1.dep = some d1) (hd1 : d1.status.deployed = false) (d'' : Dependency)
    (h'' : (depPlace dep0 w1).world.dep = some d'') :
    d''.status.deployed = false := by
  obtain ⟨wdep, wpol, weng⟩ := w1
  simp only at h1
  subst h1
  cases weng with
  | nil =>
    simp only [depPlace] at h''
    obtain ⟨conds2, hW2⟩ := depAddCondition_shape
      ⟨some d1, wpol, [] ++ [⟨"default", "default", [dep0.spec.policyName], [], [], false, [], 0⟩]⟩
      d1 ⟨"Available", "False", "Scheduled", "Dependency scheduled in default engine"⟩ rfl
    rw [hW2] at h''
    rw [depAppendEngineName_shape _ ⟨d1.spec, ⟨conds2, d1.status.deployed, d1.status.engineName⟩⟩ _ rfl] at h''
    simp only [Option.some.injEq] at h''
    rw [← h'']
    simpa using hd1
  | cons e0 erest =>
    by_cases herr : (addPolicyToEngine ⟨some d1, wpol, e0 :: erest⟩ dep0.spec.policyName e0).isError
    · simp only [depPlace, herr, if_true] at h''
      have hpres := addPolicyToEngine_dep ⟨some d1, wpol, e0 :: erest⟩ dep0.spec.policyName e0
      rw [hpres.1] at h''
      simp only [Option.some.injEq] at h''
      rw [← h'']
      exact hd1
    · simp only [depPlace, herr, Bool.false_eq_true, if_false] at h''
      have hpres := addPolicyToEngine_dep ⟨some d1, wpol, e0 :: erest⟩ dep0.spec.policyName e0
      obtain ⟨conds2, hW2⟩ := depAddCondition_shape
        (addPolicyToEngine ⟨some d1, wpol, e0 :: erest⟩ dep0.spec.policyName e0).world d1
        ⟨"Available", "True", "PolicyScheduled", "Policy scheduled in existing engine"⟩ (by rw [hpres.1])
      rw [hW2] at h''
      rw [depAppendEngineName_shape _ ⟨d1.spec, ⟨conds2, d1.status.deployed, d1.status.engineName⟩⟩ _ rfl] at h''
      simp only [Option.some.injEq] at h''
      rw [← h'']
      simpa using hd1

/-- C7: whenever a Dependency reconcile turns `Status.deployed` from false
to true, the resulting Dependency's `Status.engineName` contains the name
of an Engine (in the resulting world) whose `Spec.policies` contains
`Spec.policyName`. -/
theorem depReconcile_deployed_invariant (w : DWorld) (d d' : Dependency)
    (hdep : w.dep = some d)
    (hbefore : d.status.deployed = false)
    (hafter : (DependencyReconcile w).world.dep = some d')
    (hdt : d'.status.deployed = true) :
    ∃ n ∈ d'.status.engineName, ∃ e,
      engineGet (DependencyReconcile w).world.engines n = some e ∧
      d'.spec.policyName ∈ e.policies := by
  have hb : ∃ conds1,
      (if d.status.conditions.isEmpty then
        depAddCondition w ⟨"Available", "Unknown", "DependencyNotReady", "Dependency is not ready"⟩
      else (w, [])).1 =
      ⟨some ⟨d.spec, ⟨conds1, d.status.deployed, d.status.engineName⟩⟩, w.policies, w.engines⟩ := by
    by_cases hbe : d.status.conditions.isEmpty
    · rw [if_pos hbe]
      exact depAddCondition_shape w d _ hdep
    · rw [if_neg hbe]
      exact ⟨d.status.conditions, dworld_eta w d hdep⟩
  obtain ⟨conds1, hW1⟩ := hb
  simp only [DependencyReconcile, hdep] at hafter ⊢
  rw [hW1] at hafter ⊢
  simp only [hbefore, Bool.false_eq_true, if_false] at hafter ⊢
  by_cases hpol : w.policies.contains d.spec.policyName
  · simp only [hpol, Bool.not_true, Bool.false_eq_true, if_false] at hafter ⊢
    by_cases hlen : d.status.engineName.length > 0
    · simp only [if_pos hlen] at hafter ⊢
      rcases depVerifyScheduled_cases d
          ⟨some ⟨d.spec, ⟨conds1, false, d.status.engineName⟩⟩, w.policies, w.engines⟩
          d.status.engineName with hleft | ⟨n, hn, e, hge, hpe, hworld⟩
      · rw [hleft.1] at hafter
        simp only [Option.some.injEq] at hafter
        rw [← hafter] at hdt
        simp at hdt
      · rw [hworld] at hafter ⊢
        obtain ⟨conds3, hW3⟩ := depAddCondition_shape
          ⟨some ⟨d.spec, ⟨conds1, false, d.status.engineName⟩⟩, w.policies, w.engines⟩
          ⟨d.spec, ⟨conds1, false, d.status.engineName⟩⟩
          ⟨"Available", "True", "PolicyDeployed", "Policy already scheduled"⟩ rfl
        rw [hW3] at hafter ⊢
        rw [depSetDeployed_shape _ ⟨d.spec, ⟨conds3, false, d.status.engineName⟩⟩ rfl] at hafter ⊢
        simp only [Option.some.injEq] at hafter
        rw [← hafter]
        exact ⟨n, hn, e, hge, hpe⟩
    · simp only [if_neg hlen] at hafter ⊢
      have hd2 := depPlace_deployed d
        ⟨some ⟨d.spec, ⟨conds1, false, d.status.engineName⟩⟩, w.policies, w.engines⟩
        ⟨d.spec, ⟨conds1, false, d.status.engineName⟩⟩ rfl rfl d' hafter
      rw [hd2] at hdt
      simp at hdt
  · simp only [hpol, Bool.not_false, if_true] at hafter ⊢
    obtain ⟨conds2, hW2⟩ := depAddCondition_shape
      ⟨some ⟨d.spec, ⟨conds1, false, d.status.engineName⟩⟩, w.policies, w.engines⟩
      ⟨d.spec, ⟨conds1, false, d.status.engineName⟩⟩
      ⟨"Available", "False", "PolicyNotFound", "Policy not found"⟩ rfl
    rw [hW2] at hafter
    simp only [Option.some.injEq] at hafter
    rw [← hafter] at hdt
    simp at hdt

theorem depVerifyScheduled_missing (dep0 : Dependency) (w1 : DWorld)
    (ns1 : List String) (n : String) (ns2 : List String)
    (hprior : ∀ m ∈ ns1, ∃ e, engineGet w1.engines m = some e ∧
      dep0.spec.policyName ∉ e.policies)
    (hmiss : engineGet w1.engines n = none) :
    depVerifyScheduled dep0 w1 (ns1 ++ n :: ns2) = ⟨w1, [], some 1, true⟩ := by
  induction ns1 with
  | nil =>
    simp only [List.nil_append, depVerifyScheduled, hmiss]
  | cons m ms ih =>
    obtain ⟨e, hge, hpe⟩ := hprior m (List.mem_cons_self m ms)
    have hc : e.policies.contains dep0.spec.policyName = false := by
      simp [List.elem_iff]
      exact hpe
    rw [List.cons_append]
    simp only [depVerifyScheduled, hge, hc, Bool.false_eq_true, if_false]
    exact ih (fun m' hm' => hprior m' (List.mem_cons_of_mem _ hm'))

/-- C9 (amended): a not-yet-deployed Dependency whose `Status.engineName`
names a missing Engine (no earlier listed engine carrying the policy) does
NOT re-place the policy: the reconcile aborts inside the verification loop,
returning an error with a ~1s requeue, leaving the engine list unchanged
and performing at most the bootstrap condition write — re-placement happens
only when `Status.engineName` is empty. -/
theorem depReconcile_missingEngine (w : DWorld) (d : Dependency) (ns1 : List String)
    (n : String) (ns2 : List String)
    (hdep : w.dep = some d)
    (hnd : d.status.deployed = false)
    (hpol : w.policies.contains d.spec.policyName = true)
    (hnames : d.status.engineName = ns1 ++ n :: ns2)
    (hprior : ∀ m ∈ ns1, ∃ e, engineGet w.engines m = some e ∧
      d.spec.policyName ∉ e.policies)
    (hmiss : engineGet w.engines n = none) :
    (DependencyReconcile w).isError = true ∧
    (DependencyReconcile w).requeueAfter = some 1 ∧
    (DependencyReconcile w).world.engines = w.engines ∧
    (∀ x ∈ (DependencyReconcile w).writes, x = DWrite.depStatus) := by
  have hb : ∃ conds1,
      (if d.status.conditions.isEmpty then
        depAddCondition w ⟨"Available", "Unknown", "DependencyNotReady", "Dependency is not ready"⟩
      else (w, [])).1 =
      ⟨some ⟨d.spec, ⟨conds1, d.status.deployed, d.status.engineName⟩⟩, w.policies, w.engines⟩ ∧
      ((if d.status.conditions.isEmpty then
        depAddCondition w ⟨"Available", "Unknown", "DependencyNotReady", "Dependency is not ready"⟩
      else (w, [])).2 = [] ∨
       (if d.status.conditions.isEmpty then
        depAddCondition w ⟨"Available", "Unknown", "DependencyNotReady", "Dependency is not ready"⟩
      else (w, [])).2 = [DWrite.depStatus]) := by
    by_cases hbe : d.status.conditions.isEmpty
    · simp only [if_pos hbe]
      obtain ⟨c1, h1⟩ := depAddCondition_shape w d _ hdep
      exact ⟨c1, h1, depAddCondition_writes w _⟩
    · simp only [if_neg hbe]
      exact ⟨d.status.conditions, dworld_eta w d hdep, Or.inl (by trivial)⟩
  obtain ⟨conds1, hW1, hws⟩ := hb
  have hlen : d.status.engineName.length > 0 := by
    rw [hnames]
    simp
  simp only [DependencyReconcile, hdep]
  rw [hW1]
  simp only [hnd, Bool.false_eq_true, if_false, hpol, Bool.not_true, if_pos hlen]
  rw [hnames]
  rw [depVerifyScheduled_missing d
    ⟨some ⟨d.spec, ⟨conds1, false, ns1 ++ n :: ns2⟩⟩, w.policies, w.engines⟩
    ns1 n ns2 hprior hmiss]
  refine ⟨rfl, rfl, rfl, ?_⟩
  intro x hx
  simp only [List.append_nil] at hx
  rcases hws with h | h <;> rw [h] at hx
  · simp at hx
  · simpa using hx

/-- The world of the C9 counterexample and witness: a not-yet-deployed
Dependency pointing (only) at the deleted engine `gone`; the Policy exists. -/
def missWorldEx : DWorld :=
  ⟨some ⟨⟨"svc", "p1"⟩,
    ⟨[⟨"Available", "Unknown", "DependencyNotReady", "Dependency is not ready"⟩],
      false, ["gone"]⟩⟩, ["p1"], []⟩

/-- C9 counterexample: with `Status.engineName = ["gone"]` and no engine
`gone`, the next reconcile does NOT reach the placement step — no engine is
created or updated (no writes at all) — it returns an error with a 1s
requeue, contradicting the claimed re-placement. -/
theorem depReconcile_missingEngine_cex :
    (DependencyReconcile missWorldEx).isError = true ∧
    (DependencyReconcile missWorldEx).requeueAfter = some 1 ∧
    (DependencyReconcile missWorldEx).world.engines = [] ∧
    (DependencyReconcile missWorldEx).writes = [] := by decide

/-- Witness for C9 (amended) at the concrete `missWorldEx`. -/
theorem depReconcile_missingEngine_witness :
    (DependencyReconcile missWorldEx).isError = true ∧
    (DependencyReconcile missWorldEx).requeueAfter = some 1 ∧
    (DependencyReconcile missWorldEx).world.engines = missWorldEx.engines ∧
    (∀ x ∈ (DependencyReconcile missWorldEx).writes, x = DWrite.depStatus) :=
  depReconcile_missingEngine missWorldEx
    ⟨⟨"svc", "p1"⟩,
      ⟨[⟨"Available", "Unknown", "DependencyNotReady", "Dependency is not ready"⟩],
        false, ["gone"]⟩⟩
    [] "gone" [] rfl rfl (by decide) rfl (by simp) (by decide)

/-- The Dependency of the C6 witness. -/
def pnfDepEx : Dependency := ⟨⟨"svc", "p1"⟩, ⟨[], false, []⟩⟩

/-- The world of the C6 witness: no Policy object, no engines. -/
def pnfWorldEx : DWorld := ⟨some pnfDepEx, [], []⟩

/-- Witness for C6 at the concrete `pnfWorldEx`. -/
theorem depReconcile_policyNotFound_witness :
    (DependencyReconcile pnfWorldEx).isError = false ∧
    (DependencyReconcile pnfWorldEx).requeueAfter = some 10 ∧
    (DependencyReconcile pnfWorldEx).world.engines = pnfWorldEx.engines ∧
    ∃ d', (DependencyReconcile pnfWorldEx).world.dep = some d' ∧
      (⟨"Available", "False", "PolicyNotFound", "Policy not found"⟩ : Condition) ∈ d'.status.conditions ∧
      d'.status.deployed = false :=
  depReconcile_policyNotFound pnfWorldEx pnfDepEx rfl rfl (by decide)

/-- Witness for C2 (amended) at the concrete boundary world. -/
theorem addPolicyToEngine_budget_witness :
    (addPolicyToEngine splitWorldEx "p8" splitEngineEx).isError = false ∧
    (∃ e', engineGet (addPolicyToEngine splitWorldEx "p8" splitEngineEx).world.engines splitEngineEx.name = some e' ∧ e'.policies.length ≤ 7) ∧
    (∃ e2, engineGet (addPolicyToEngine splitWorldEx "p8" splitEngineEx).world.engines (splitEngineEx.name ++ "-part2") = some e2 ∧ e2.policies.length = 5) := by
  have h := addPolicyToEngine_budget splitWorldEx splitEngineEx "p8" (by decide) (by decide) (by decide)
  refine ⟨h.1, ?_, h.2.2 (by decide) (by decide)⟩
  have hx : engineGet (addPolicyToEngine splitWorldEx "p8" splitEngineEx).world.engines splitEngineEx.name =
      some ⟨"default", "default", ["p1", "p2", "p3"], [], [], false, [], 0⟩ := by decide
  exact ⟨_, hx, h.2.1 _ hx⟩

/-- The deployed Dependency produced by the C7 witness reconcile. -/
def deployedDepEx : Dependency :=
  ⟨⟨"svc", "p1"⟩,
    ⟨[⟨"Available", "True", "PolicyDeployed", "Policy already scheduled"⟩], true, ["default"]⟩⟩

/-- The world of the C7 witness: a scheduled, not yet verified Dependency. -/
def deployWorldEx : DWorld :=
  ⟨some ⟨⟨"svc", "p1"⟩,
    ⟨[⟨"Available", "Unknown", "DependencyNotReady", "Dependency is not ready"⟩],
      false, ["default"]⟩⟩,
    ["p1"], [⟨"default", "default", ["p1"], [], [], false, [], 0⟩]⟩

/-- Witness for C7 at the concrete `deployWorldEx`. -/
theorem depReconcile_deployed_invariant_witness :
    (DependencyReconcile deployWorldEx).world.dep = some deployedDepEx ∧
    ∃ n ∈ deployedDepEx.status.engineName, ∃ e,
      engineGet (DependencyReconcile deployWorldEx).world.engines n = some e ∧
      deployedDepEx.spec.policyName ∈ e.policies := by
  have hafter : (DependencyReconcile deployWorldEx).world.dep = some deployedDepEx := by decide
  exact ⟨hafter,
    depReconcile_deployed_invariant deployWorldEx
      ⟨⟨"svc", "p1"⟩,
        ⟨[⟨"Available", "Unknown", "DependencyNotReady", "Dependency is not ready"⟩],
          false, ["default"]⟩⟩
      deployedDepEx rfl rfl hafter (by decide)⟩

/-- The finalizer string of the Engine controller. -/
def OpaEngineFinalizer : String := "opa-scaler.polimi.it/oe-finalizer"

/-- A child Deployment as the Engine controller reads it: `Spec.Replicas`
and `Status.AvailableReplicas`. -/
structure EDeployment where
  replicas : Nat
  availableReplicas : Nat
deriving DecidableEq, Repr

/-- The cluster state the Engine controller reads and writes: the OpaEngine
under reconcile, its child Service (existence) and Deployment, and the
namespace's Policy objects (name ↦ rego source). -/
structure EWorld where
  engine : Option OpaEngine
  serviceExists : Bool
  deployment : Option EDeployment
  policyRego : List (String × String)
deriving DecidableEq, Repr

/-- Outcome of one status-subresource update attempt (injectable failure). -/
inductive UpdateOutcome where
  | ok
  | conflict
  | failed (msg : String)
deriving DecidableEq, Repr

/-- The environment of one Engine reconcile: the HTTP runtime for PUT and
DELETE of policies, and the outcome of the status update performed right
after a successful `PushPolicies`. -/
structure EEnv where
  put : String → HttpAnswer
  del : String → HttpAnswer
  pushStatusUpdate : UpdateOutcome

/-- A write performed by the Engine controller: cluster writes and HTTP
calls to the engine runtime. -/
inductive EWrite where
  | engineStatus
  | engineUpdate
  | createService
  | createDeployment
  | deleteDeployment
  | deleteService
  | httpPut (name : String)
  | httpDelete (name : String)
deriving DecidableEq, Repr

/-- Result of one Engine reconcile. -/
structure EOutcome where
  world : EWorld
  writes : List EWrite
  requeueAfter : Option Nat
  isError : Bool
deriving DecidableEq, Repr

/-- `OpaEngineReconciler.addCondition`: re-fetch, `meta.SetStatusCondition`,
status update only when changed. -/
def engineAddCondition (w : EWorld) (c : Condition) : EWorld × List EWrite :=
  match w.engine with
  | none => (w, [])
  | some e =>
    let r := setStatusCondition e.conditions c
    if r.2 then ({ w with engine := some { e with conditions := r.1 } }, [.engineStatus])
    else (w, [])

/-- `OpaEngineReconciler.getPolicyCode`: fetch the Policy and read `Spec.Rego`. -/
def getPolicyCode (reg : List (String × String)) (n : String) : Option String :=
  (reg.find? (fun p => p.1 == n)).map Prod.snd

/-- The loop building the `policies` map before `PushPolicies`: fetch each
policy's code, failing the reconcile if any fetch fails. -/
def collectPolicyCodes (reg : List (String × String)) : List String → Option (List (String × String))
  | [] => some []
  | p :: rest =>
    match getPolicyCode reg p with
    | none => none
    | some code =>
      match collectPolicyCodes reg rest with
      | none => none
      | some l => some ((p, code) :: l)

/-- `r.Status().Update(ctx, engine)`: replace the stored engine's status
(observed policies and conditions) with the local object's status. -/
def engineStatusUpdate (w : EWorld) (local0 : OpaEngine) : EWorld :=
  match w.engine with
  | none => w
  | some e =>
    let e2 := { e with statusPolicies := local0.statusPolicies, conditions := local0.conditions }
    { w with engine := some e2 }

/-- `deploymentForOpaEngine`: replicas default to 1 when 0; freshly created,
no replicas available yet. -/
def deploymentForOpaEngine (eng : OpaEngine) : EDeployment :=
  ⟨if eng.replicas = 0 then 1 else eng.replicas, 0⟩

/-- The removal half of the Engine controller's policy sync: when
`toBeRemoved` is non-empty, `DeletePolicies`, then drop the removed names
from the local engine's `Status.policies` and update status. -/
def policySyncRemove (env : EEnv) (w : EWorld) (ws : List EWrite) (eng : OpaEngine)
    (toBeRemoved : List String) : EOutcome :=
  if toBeRemoved.length > 0 then
    let r := DeletePolicies env.del toBeRemoved
    let delWrites := r.1.map EWrite.httpDelete
    match r.2 with
    | some _ => ⟨w, ws ++ delWrites, none, true⟩
    | none =>
      let eng2 := { eng with statusPolicies := eng.statusPolicies.filter (fun s => !(r.1.contains s)) }
      ⟨engineStatusUpdate w eng2, ws ++ delWrites ++ [.engineStatus], none, false⟩
  else ⟨w, ws, none, false⟩

/-- The Engine controller's policy-sync step (runs only when the deployment
is fully available): `MergePolicies` on the local engine's Spec/Status
policies; fetch codes and `PushPolicies` for the additions (abort on any
error); append the pushed names to `Status.policies` and update status —
a conflict on that update is ignored (the append is lost), any other
failure aborts the reconcile; then the removal half. -/
def policySync (env : EEnv) (w : EWorld) (ws : List EWrite) (eng : OpaEngine) : EOutcome :=
  let m := MergePolicies eng.policies eng.statusPolicies
  if m.1.length > 0 then
    match collectPolicyCodes w.policyRego m.1 with
    | none => ⟨w, ws, none, true⟩
    | some pairs =>
      let pr := PushPolicies env.put pairs
      let putWrites := pr.1.map EWrite.httpPut
      match pr.2 with
      | some _ => ⟨w, ws ++ putWrites, none, true⟩
      | none =>
        let eng2 := { eng with statusPolicies := eng.statusPolicies ++ pr.1 }
        match env.pushStatusUpdate with
        | .ok => policySyncRemove env (engineStatusUpdate w eng2) (ws ++ putWrites ++ [.engineStatus]) eng2 m.2
        | .conflict => policySyncRemove env w (ws ++ putWrites) eng2 m.2
        | .failed _ => ⟨w, ws ++ putWrites, none, true⟩
  else policySyncRemove env w ws eng m.2

/-- The non-deletion tail of the Engine reconcile: ensure the child Service
and Deployment exist (a fresh Deployment requeues after ~5s), set the
availability condition from `availableReplicas`, and run the policy sync
when available. -/
def engineReconcileMain (env : EEnv) (w : EWorld) (ws : List EWrite) (eng : OpaEngine) : EOutcome :=
  let sres := if !w.serviceExists then ({ w with serviceExists := true }, [EWrite.createService]) else (w, [])
  let w1 := sres.1
  match w1.deployment with
  | none =>
    ⟨{ w1 with deployment := some (deploymentForOpaEngine eng) },
      ws ++ sres.2 ++ [.createDeployment], some 5, false⟩
  | some d =>
    let ares :=
      if d.availableReplicas == d.replicas then
        engineAddCondition w1 ⟨"Available", "True", "Available", "OpaEngine is available"⟩
      else
        engineAddCondition w1 ⟨"Available", "False", "Unavailable", "OpaEngine is not available"⟩
    if d.availableReplicas == d.replicas then
      policySync env ares.1 (ws ++ sres.2 ++ ares.2) eng
    else ⟨ares.1, ws ++ sres.2 ++ ares.2, none, false⟩

/-- `OpaEngineReconciler.Reconcile`: fetch; bootstrap condition; finalizer
discipline (add when absent; on deletion delete child Deployment and
Service — a delete of a missing child fails the reconcile — then remove
the finalizer); then the main service/deployment/availability/policy-sync
sequence. -/
def OpaEngineReconcile (env : EEnv) (w : EWorld) : EOutcome :=
  match w.engine with
  | none => ⟨w, [], none, false⟩
  | some eng0 =>
    let b := if eng0.conditions.isEmpty then
               engineAddCondition w ⟨"Available", "Unknown", "Reconciling", "Starting reconciliation of the OpaEngine"⟩
             else (w, [])
    if !eng0.deletionTimestamp then
      if !(eng0.finalizers.contains OpaEngineFinalizer) then
        match b.1.engine with
        | none => ⟨b.1, b.2, none, true⟩
        | some cur =>
          let eng1 := { cur with finalizers := cur.finalizers ++ [OpaEngineFinalizer] }
          engineReconcileMain env { b.1 with engine := some eng1 } (b.2 ++ [.engineUpdate]) eng1
      else engineReconcileMain env b.1 b.2 eng0
    else
      if eng0.finalizers.contains OpaEngineFinalizer then
        match b.1.deployment with
        | none => ⟨b.1, b.2, none, true⟩
        | some _ =>
          let w2 := { b.1 with deployment := none }
          if !w2.serviceExists then ⟨w2, b.2 ++ [.deleteDeployment], none, true⟩
          else
            let w3 := { w2 with serviceExists := false }
            match w3.engine with
            | none => ⟨w3, b.2 ++ [.deleteDeployment, .deleteService], none, true⟩
            | some cur =>
              ⟨{ w3 with engine := some { cur with finalizers := cur.finalizers.filter (fun f => !(f == OpaEngineFinalizer)) } },
               b.2 ++ [.deleteDeployment, .deleteService, .engineUpdate], none, false⟩
      else ⟨b.1, b.2, none, false⟩

theorem isEmpty_false_of_ne_nil {α : Type _} (l : List α) (h : l ≠ []) : l.isEmpty = false := by
  cases l with
  | nil => exact absurd rfl h
  | cons a as => rfl

theorem contains_filter_beq_ne (l : List String) (s : String) :
    (l.filter (fun f => !(f == s))).contains s = false := by
  induction l with
  | nil => rfl
  | cons x xs ih =>
    by_cases hx : x = s
    · simp [List.filter_cons, hx, ih]
    · simp only [List.filter_cons]
      have hbx : (x == s) = false := by simpa using hx
      simp [hbx, List.contains_cons, ih]
      simpa using fun hh => hx hh.symm

/-- C8 (amended): an Engine with a deletion timestamp that still holds the
finalizer, whose child Deployment and Service both exist: one reconcile
deletes both children, removes the finalizer and returns success with no
requeue. (When a child is already gone the delete fails and the reconcile
returns that error — see the counterexample for the claimed
ignore-not-found behaviour.) -/
theorem engineReconcile_finalize (env : EEnv) (w : EWorld) (e : OpaEngine) (d : EDeployment)
    (hw : w.engine = some e)
    (hconds : e.conditions ≠ [])
    (hdel : e.deletionTimestamp = true)
    (hfin : e.finalizers.contains OpaEngineFinalizer = true)
    (hdep : w.deployment = some d)
    (hsvc : w.serviceExists = true) :
    (OpaEngineReconcile env w).isError = false ∧
    (OpaEngineReconcile env w).requeueAfter = none ∧
    (OpaEngineReconcile env w).world.deployment = none ∧
    (OpaEngineReconcile env w).world.serviceExists = false ∧
    (∃ e', (OpaEngineReconcile env w).world.engine = some e' ∧
      e'.finalizers.contains OpaEngineFinalizer = false) ∧
    (OpaEngineReconcile env w).writes =
      [EWrite.deleteDeployment, EWrite.deleteService, EWrite.engineUpdate] := by
  obtain ⟨weng, wsvc, wdep, wreg⟩ := w
  simp only at hw hdep hsvc
  subst hw
  subst hdep
  subst hsvc
  have hce : e.conditions.isEmpty = false := isEmpty_false_of_ne_nil _ hconds
  simp only [OpaEngineReconcile, hce, Bool.false_eq_true, if_false, hdel, Bool.not_true, hfin,
    if_true]
  exact ⟨by trivial, by trivial, by trivial, by trivial,
    ⟨_, rfl, contains_filter_beq_ne _ _⟩, by trivial⟩

/-- An all-success environment (every PUT/DELETE answers 200, status
updates succeed). -/
def envOk : EEnv := ⟨fun _ => .resp 200 "200 OK" "", fun _ => .resp 200 "200 OK" "", .ok⟩

/-- An Engine marked for deletion, still holding the finalizer. -/
def delEngineEx : OpaEngine :=
  ⟨"default", "default", [], [],
    [⟨"Available", "True", "Available", "OpaEngine is available"⟩],
    true, [OpaEngineFinalizer], 1⟩

/-- World for the C8 witness: both children exist. -/
def delWorldEx : EWorld := ⟨some delEngineEx, true, some ⟨1, 1⟩, []⟩

/-- World for the C8 counterexample: the child Deployment does not exist. -/
def delWorldMissEx : EWorld := ⟨some delEngineEx, false, none, []⟩

/-- C8 counterexample: the controller does NOT ignore not-found on child
deletion — with the child Deployment already gone, the reconcile returns an
error and the finalizer is NOT removed, contradicting the claimed
treat-as-success behaviour. -/
theorem engineReconcile_finalize_cex :
    (OpaEngineReconcile envOk delWorldMissEx).isError = true ∧
    (OpaEngineReconcile envOk delWorldMissEx).world.engine = some delEngineEx ∧
    delEngineEx.finalizers.contains OpaEngineFinalizer = true ∧
    (OpaEngineReconcile envOk delWorldMissEx).writes = [] := by decide

/-- Witness for C8 (amended) at the concrete `delWorldEx`. -/
theorem engineReconcile_finalize_witness :
    (OpaEngineReconcile envOk delWorldEx).isError = false ∧
    (OpaEngineReconcile envOk delWorldEx).requeueAfter = none ∧
    (OpaEngineReconcile envOk delWorldEx).world.deployment = none ∧
    (OpaEngineReconcile envOk delWorldEx).world.serviceExists = false ∧
    (∃ e', (OpaEngineReconcile envOk delWorldEx).world.engine = some e' ∧
      e'.finalizers.contains OpaEngineFinalizer = false) ∧
    (OpaEngineReconcile envOk delWorldEx).writes =
      [EWrite.deleteDeployment, EWrite.deleteService, EWrite.engineUpdate] :=
  engineReconcile_finalize envOk delWorldEx delEngineEx ⟨1, 1⟩
    rfl (by decide) rfl rfl rfl rfl

theorem engineReconcile_toSync (env : EEnv) (w : EWorld) (e : OpaEngine) (d : EDeployment)
    (hw : w.engine = some e)
    (hconds : e.conditions ≠ [])
    (hdel : e.deletionTimestamp = false)
    (hfin : e.finalizers.contains OpaEngineFinalizer = true)
    (hsvc : w.serviceExists = true)
    (hdep : w.deployment = some d)
    (havail : d.availableReplicas = d.replicas)
    (hcond : (setStatusCondition e.conditions
      ⟨"Available", "True", "Available", "OpaEngine is available"⟩).2 = false) :
    OpaEngineReconcile env w = policySync env w [] e := by
  obtain ⟨weng, wsvc, wdep, wreg⟩ := w
  simp only at hw hdep hsvc
  subst hw
  subst hdep
  subst hsvc
  have hce : e.conditions.isEmpty = false := isEmpty_false_of_ne_nil _ hconds
  have hbeq : (d.availableReplicas == d.replicas) = true := by
    simp [havail]
  simp only [OpaEngineReconcile, hce, Bool.false_eq_true, if_false, hdel, Bool.not_false,
    if_true, hfin, Bool.not_true, engineReconcileMain, hbeq, engineAddCondition, hcond,
    List.append_nil, List.nil_append]

theorem depReconcile_steady (w : DWorld) (d : Dependency)
    (hdep : w.dep = some d)
    (hc : d.status.conditions ≠ [])
    (hdp : d.status.deployed = true) :
    DependencyReconcile w = ⟨w, [], none, false⟩ := by
  have hce : d.status.conditions.isEmpty = false := isEmpty_false_of_ne_nil _ hc
  simp only [DependencyReconcile, hdep, hce, Bool.false_eq_true, if_false, hdp, if_true]

theorem engineReconcile_steady (env : EEnv) (w : EWorld) (e : OpaEngine) (d : EDeployment)
    (hw : w.engine = some e)
    (hconds : e.conditions ≠ [])
    (hdel : e.deletionTimestamp = false)
    (hfin : e.finalizers.contains OpaEngineFinalizer = true)
    (hsvc : w.serviceExists = true)
    (hdep : w.deployment = some d)
    (havail : d.availableReplicas = d.replicas)
    (hcond : (setStatusCondition e.conditions
      ⟨"Available", "True", "Available", "OpaEngine is available"⟩).2 = false)
    (hmerge : MergePolicies e.policies e.statusPolicies = ([], [])) :
    OpaEngineReconcile env w = ⟨w, [], none, false⟩ := by
  rw [engineReconcile_toSync env w e d hw hconds hdel hfin hsvc hdep havail hcond]
  simp only [policySync, hmerge, List.length_nil, gt_iff_lt, lt_self_iff_false, if_false,
    policySyncRemove]

/-- C5: identical reconciles on a steady-state world are no-ops for both
controllers: on a steady Dependency world (conditions set, deployed) and a
steady Engine world (conditions set, finalizer present, children present
and available, availability condition already set, Spec/Status policies in
agreement) each Reconcile leaves the world unchanged with no writes, and a
second Reconcile performs no writes either. -/
theorem reconcile_idempotent (env : EEnv) (wD : DWorld) (dd : Dependency)
    (wE : EWorld) (e : OpaEngine) (d : EDeployment)
    (hdd : wD.dep = some dd)
    (hdc : dd.status.conditions ≠ [])
    (hddp : dd.status.deployed = true)
    (hw : wE.engine = some e)
    (hec : e.conditions ≠ [])
    (hedel : e.deletionTimestamp = false)
    (hfin : e.finalizers.contains OpaEngineFinalizer = true)
    (hsvc : wE.serviceExists = true)
    (hd : wE.deployment = some d)
    (havail : d.availableReplicas = d.replicas)
    (hcond : (setStatusCondition e.conditions
      ⟨"Available", "True", "Available", "OpaEngine is available"⟩).2 = false)
    (hmerge : MergePolicies e.policies e.statusPolicies = ([], [])) :
    (DependencyReconcile wD).world = wD ∧
    (DependencyReconcile wD).writes = [] ∧
    (DependencyReconcile (DependencyReconcile wD).world).writes = [] ∧
    (OpaEngineReconcile env wE).world = wE ∧
    (OpaEngineReconcile env wE).writes = [] ∧
    (OpaEngineReconcile env (OpaEngineReconcile env wE).world).writes = [] := by
  have h1 := depReconcile_steady wD dd hdd hdc hddp
  have h2 := engineReconcile_steady env wE e d hw hec hedel hfin hsvc hd havail hcond hmerge
  exact ⟨by simp [h1], by simp [h1], by simp [h1], by simp [h2], by simp [h2], by simp [h2]⟩

/-- The steady Dependency of the C5 witness. -/
def steadyDepEx : Dependency :=
  ⟨⟨"svc", "p1"⟩,
    ⟨[⟨"Available", "True", "PolicyDeployed", "Policy already scheduled"⟩], true, ["default"]⟩⟩

/-- The steady Dependency world of the C5 witness. -/
def steadyDWorldEx : DWorld := ⟨some steadyDepEx, ["p1"], []⟩

/-- The steady Engine of the C5 witness. -/
def steadyEngineEx : OpaEngine :=
  ⟨"default", "default", ["p1"], ["p1"],
    [⟨"Available", "True", "Available", "OpaEngine is available"⟩],
    false, [OpaEngineFinalizer], 1⟩

/-- The steady Engine world of the C5 witness. -/
def steadyEWorldEx : EWorld := ⟨some steadyEngineEx, true, some ⟨1, 1⟩, [("p1", "code")]⟩

/-- Witness for C5 at concrete steady-state worlds. -/
theorem reconcile_idempotent_witness :
    (DependencyReconcile steadyDWorldEx).world = steadyDWorldEx ∧
    (DependencyReconcile steadyDWorldEx).writes = [] ∧
    (DependencyReconcile (DependencyReconcile steadyDWorldEx).world).writes = [] ∧
    (OpaEngineReconcile envOk steadyEWorldEx).world = steadyEWorldEx ∧
    (OpaEngineReconcile envOk steadyEWorldEx).writes = [] ∧
    (OpaEngineReconcile envOk (OpaEngineReconcile envOk steadyEWorldEx).world).writes = [] :=
  reconcile_idempotent envOk steadyDWorldEx steadyDepEx steadyEWorldEx steadyEngineEx ⟨1, 1⟩
    rfl (by decide) rfl rfl (by decide) rfl rfl rfl rfl rfl (by decide) (by decide)

/-- C10: in the policy-sync step, when `PushPolicies` succeeds for the
additions (and there is nothing to remove), a conflict on the subsequent
status update is ignored — the reconcile returns success with no requeue
and the cluster state is unchanged, so the pushed names are not recorded in
`Status.policies` in that reconcile — while any non-conflict failure of
that same status update is returned as an error. -/
theorem engineReconcile_pushConflict (put del : String → HttpAnswer) (msg : String)
    (w : EWorld) (e : OpaEngine) (d : EDeployment) (pairs : List (String × String))
    (hw : w.engine = some e)
    (hec : e.conditions ≠ [])
    (hedel : e.deletionTimestamp = false)
    (hfin : e.finalizers.contains OpaEngineFinalizer = true)
    (hsvc : w.serviceExists = true)
    (hd : w.deployment = some d)
    (havail : d.availableReplicas = d.replicas)
    (hcond : (setStatusCondition e.conditions
      ⟨"Available", "True", "Available", "OpaEngine is available"⟩).2 = false)
    (htoadd : (MergePolicies e.policies e.statusPolicies).1 ≠ [])
    (hremove : (MergePolicies e.policies e.statusPolicies).2 = [])
    (hcodes : collectPolicyCodes w.policyRego (MergePolicies e.policies e.statusPolicies).1 = some pairs)
    (hok : ∀ nc ∈ pairs, ok200 (put nc.1)) :
    ((OpaEngineReconcile ⟨put, del, UpdateOutcome.conflict⟩ w).isError = false ∧
     (OpaEngineReconcile ⟨put, del, UpdateOutcome.conflict⟩ w).requeueAfter = none ∧
     (OpaEngineReconcile ⟨put, del, UpdateOutcome.conflict⟩ w).world = w) ∧
    (OpaEngineReconcile ⟨put, del, UpdateOutcome.failed msg⟩ w).isError = true := by
  have hlen : (MergePolicies e.policies e.statusPolicies).1.length > 0 := by
    cases hm : (MergePolicies e.policies e.statusPolicies).1 with
    | nil => exact absurd hm htoadd
    | cons a l => simp
  have hnone : (PushPolicies put pairs).2 = none := (pushPolicies_err_none put pairs).mpr hok
  constructor
  · rw [engineReconcile_toSync ⟨put, del, UpdateOutcome.conflict⟩ w e d
      hw hec hedel hfin hsvc hd havail hcond]
    simp only [policySync, if_pos hlen, hcodes, hnone, hremove, policySyncRemove,
      List.length_nil, gt_iff_lt, lt_self_iff_false, if_false]
    exact ⟨by trivial, by trivial, by trivial⟩
  · rw [engineReconcile_toSync ⟨put, del, UpdateOutcome.failed msg⟩ w e d
      hw hec hedel hfin hsvc hd havail hcond]
    simp only [policySync, if_pos hlen, hcodes, hnone]

/-- The Engine of the C10 witness: `p2` desired but not yet observed. -/
def syncEngineEx : OpaEngine :=
  ⟨"default", "default", ["p1", "p2"], ["p1"],
    [⟨"Available", "True", "Available", "OpaEngine is available"⟩],
    false, [OpaEngineFinalizer], 1⟩

/-- The world of the C10 witness. -/
def syncWorldEx : EWorld := ⟨some syncEngineEx, true, some ⟨1, 1⟩, [("p1", "c1"), ("p2", "c2")]⟩

/-- A PUT/DELETE oracle answering 200 everywhere. -/
def http200 : String → HttpAnswer := fun _ => .resp 200 "200 OK" ""

/-- Witness for C10 at the concrete `syncWorldEx`. -/
theorem engineReconcile_pushConflict_witness :
    ((OpaEngineReconcile ⟨http200, http200, UpdateOutcome.conflict⟩ syncWorldEx).isError = false ∧
     (OpaEngineReconcile ⟨http200, http200, UpdateOutcome.conflict⟩ syncWorldEx).requeueAfter = none ∧
     (OpaEngineReconcile ⟨http200, http200, UpdateOutcome.conflict⟩ syncWorldEx).world = syncWorldEx) ∧
    (OpaEngineReconcile ⟨http200, http200, UpdateOutcome.failed "boom"⟩ syncWorldEx).isError = true :=
  engineReconcile_pushConflict http200 http200 "boom" syncWorldEx syncEngineEx ⟨1, 1⟩
    [("p2", "c2")] rfl (by decide) rfl rfl rfl rfl rfl (by decide) (by decide) (by decide)
    (by decide) (by decide)
